import Mathlib

/-!
Verification development for the VSTImage engine (the PluginRack orchestrator
in src/rack/mod.rs together with the tile, codec and plugin-handle modules it
drives).  Rust code is shallowly embedded: machine integers are modelled by Nat
with explicit saturation where the code saturates, f32 arithmetic is modelled
by exact rational rounding to 24-bit significands (round to nearest, ties to
even), and operations that can panic return Option, with none standing for a
panic.
-/

/-! ## A model of f32 arithmetic

The progress percentage in rack/mod.rs is computed as
  (self.position as f32 / self.total as f32 * 100.0) as usize.
We model the nonnegative f32 values this expression manipulates: a finite
value is represented by the exact rational it denotes, plus NaN and positive
infinity.  All values reached here lie in the normal range of f32 (between
2 to the power -126 and 2 to the power 128), so rounding is modelled as
correct rounding to a 24-bit significand with unbounded exponent; subnormal
behaviour is never exercised.
-/

/-- Round a rational to the nearest integer, ties to even. -/
def rhe (x : ℚ) : ℤ :=
  if x - ⌊x⌋ < 1/2 then ⌊x⌋
  else if (1:ℚ)/2 < x - ⌊x⌋ then ⌊x⌋ + 1
  else if Even ⌊x⌋ then ⌊x⌋ else ⌊x⌋ + 1

/-- Correct rounding of a nonnegative rational to a 24-bit significand
(round to nearest, ties to even), the rounding performed by every f32
operation in the normal range.  Nonpositive inputs (never produced by the
modelled code) are mapped to 0. -/
def rnd32core (q : ℚ) : ℚ :=
  if q ≤ 0 then 0
  else (rhe (q * (2:ℚ) ^ ((23:ℤ) - Int.log 2 q)) : ℚ) * (2:ℚ) ^ (Int.log 2 q - 23)

/-- Nonnegative f32 values: NaN, positive infinity, or a finite value
represented by the exact rational it denotes. -/
inductive F32 where
  | nan : F32
  | inf : F32
  | val (q : ℚ) : F32
deriving DecidableEq

/-- Casting a usize value to f32 (Rust as-cast, rounds to nearest). -/
def F32.ofNat (n : ℕ) : F32 := .val (rnd32core n)

/-- f32 division restricted to the nonnegative values arising here:
0.0 / 0.0 is NaN, x / 0.0 with x positive is infinity. -/
def F32.div : F32 → F32 → F32
  | .nan, _ => .nan
  | _, .nan => .nan
  | .inf, .inf => .nan
  | .inf, .val _ => .inf
  | .val _, .inf => .val 0
  | .val a, .val b =>
    if b = 0 then (if a = 0 then .nan else .inf) else .val (rnd32core (a / b))

/-- f32 multiplication restricted to the nonnegative values arising here,
overflowing to infinity beyond the largest binade. -/
def F32.mul : F32 → F32 → F32
  | .nan, _ => .nan
  | _, .nan => .nan
  | .inf, .inf => .inf
  | .inf, .val b => if b = 0 then .nan else .inf
  | .val a, .inf => if a = 0 then .nan else .inf
  | .val a, .val b =>
    if (2:ℚ) ^ (128:ℕ) ≤ rnd32core (a * b) then .inf else .val (rnd32core (a * b))

/-- Rust f32-to-usize as-cast: saturating, NaN goes to 0, truncation toward
zero on finite values. -/
def F32.toUsize : F32 → ℕ
  | .nan => 0
  | .inf => 2 ^ 64 - 1
  | .val q => if q ≤ 0 then 0 else min (2 ^ 64 - 1) ⌊q⌋₊

/-- The percentage computation of PluginRack.compute_complete_percentage as a
function of the position and total fields:
  (position as f32 / total as f32 * 100.0) as usize. -/
def pctFun (p t : ℕ) : ℕ :=
  (F32.mul (F32.div (F32.ofNat p) (F32.ofNat t)) (F32.val 100)).toUsize

/-! ## Pixels, samples and tiles -/

/-- One RGBA pixel; the code works on image::RgbaImage, u8 per channel. -/
structure Pixel where
  r : ℕ
  g : ℕ
  b : ℕ
  a : ℕ
deriving DecidableEq, Repr

/-- Modelled from the spec: the input-channel selector of a plugin handle
(rack/instance.rs, not in src), a choice of which pixel channel feeds the
effect.  The spec names specific color and alpha channels. -/
inductive InputChannelType where
  | red | green | blue | alpha
deriving DecidableEq, Repr

/-- Modelled from the spec: processing::rgba_to_sample (not in src) reads
exactly one channel of a pixel and maps its native 0..255 range to a
normalized sample; deterministic, no side effects. -/
def rgba_to_sample (c : InputChannelType) (p : Pixel) : ℚ :=
  match c with
  | .red => (p.r : ℚ) / 255
  | .green => (p.g : ℚ) / 255
  | .blue => (p.b : ℚ) / 255
  | .alpha => (p.a : ℚ) / 255

/-- Clamp a sample to the convention range before mapping back. -/
def clamp01 (q : ℚ) : ℚ := max 0 (min 1 q)

/-- Modelled from the spec: processing::sample_to_rgba (not in src) blends the
processed sample back into the selected channel by linear interpolation with
factor wet, clamping to the native range. -/
def sample_to_rgba (s wet : ℚ) (p : Pixel) (c : InputChannelType) : Pixel :=
  let old : ℕ := match c with
    | .red => p.r | .green => p.g | .blue => p.b | .alpha => p.a
  let v : ℕ := min 255 (⌊(old : ℚ) * (1 - wet) + clamp01 s * 255 * wet⌋₊)
  match c with
  | .red => { p with r := v }
  | .green => { p with g := v }
  | .blue => { p with b := v }
  | .alpha => { p with a := v }

/-- A raster sub-buffer as a row-major grid of pixels. -/
abbrev Grid := List (List Pixel)

/-- The offset and extent of a tile inside the original image. -/
structure Rect where
  x : ℕ
  y : ℕ
  width : ℕ
  height : ℕ
deriving DecidableEq, Repr

/-- Modelled from the spec: one tile of a Tile Set (image_utils, not in src):
a raster sub-buffer, its location in the original image, and the needs_update
(dirty) flag consumed by the renderer. -/
structure Split where
  data : Grid
  needs_update : Bool
  loc : Rect
deriving DecidableEq, Repr

/-- Modelled from the spec: image_utils::SplittedImage (not in src), a Tile
Set: the ordered grid of tiles of one Image Version plus the dimensions of
the original image. -/
structure SplittedImage where
  splits : List Split
  origWidth : ℕ
  origHeight : ℕ
deriving DecidableEq, Repr

/-- Modelled from the spec: SplittedImage::request_all_update (not in src)
sets the redraw flag of every tile. -/
def SplittedImage.request_all_update (img : SplittedImage) : SplittedImage :=
  { img with splits := img.splits.map (fun sp => { sp with needs_update := true }) }

/-- Modelled from the spec: the fixed maximum tile width (image_utils, not in
src); 256 is consistent with the 256 * 256 block size negotiated in
start_process and the 256-pixel tile extent of the spec scenario. -/
def IMAGE_SPLIT_W : ℕ := 256

/-- Modelled from the spec: the fixed maximum tile height. -/
def IMAGE_SPLIT_H : ℕ := 256

/-- Modelled from the spec: models::area::Area (not in src), the rectangle of
a localized reprocessing request, with area() = width * height (the value
passed to set_block_size). -/
structure Area where
  x : ℕ
  y : ℕ
  width : ℕ
  height : ℕ
deriving DecidableEq, Repr

def Area.area (a : Area) : ℕ := a.width * a.height

/-! ## Plugin handles -/

/-- The observable surface of a loaded vst::PluginInstance: its reported
channel counts and the samples it writes into the bound output buffers
(channel index and sample index to sample value; the host buffer is
initialized to zeros and the native effect overwrites it arbitrarily). -/
structure VstInstance where
  inputs : ℕ
  outputs : ℕ
  processFn : List (List ℚ) → ℕ → ℕ → ℚ

/-- Lifecycle calls made on a plugin instance, recorded as trace events. -/
inductive VstEvent where
  | suspend
  | resume
  | setBlockSize (n : ℕ)
  | startProcess
  | processCall
  | stopProcess
  | dropEntry
deriving DecidableEq, Repr

/-- Modelled from the spec: rack/instance.rs::PluginRackInstance (not in
src), one Effect Unit Handle as used by rack/mod.rs: an optional live native
instance (None when the binary failed to load), the bypass flag, the chosen
input channel selector and output channel index, and the wet mix.  The Lean
keyword instance forces the field name inst. -/
structure PluginRackInstance where
  inst : Option VstInstance
  bypass : Bool
  input_channel : InputChannelType
  output_channel : ℕ
  wet : ℚ

/-! ## The rack -/

/-- PluginRack from rack/mod.rs: the ordered effect chain, the version stack
of tile sets, and the incremental-job state.  The host field (an
Arc Mutex PluginHost used only to receive callbacks) carries no job state and
is omitted. -/
structure PluginRack where
  plugins : List PluginRackInstance
  images : List SplittedImage
  position : ℕ
  total : ℕ
  finished : Bool

/-- PluginRack::new. -/
def PluginRack.new : PluginRack :=
  { plugins := [], images := [], position := 0, total := 0, finished := true }

/-- Apply a function to the last element of a list (the last_mut pattern). -/
def modifyLast {α : Type} (f : α → α) : List α → List α
  | [] => []
  | [a] => [f a]
  | a :: rest => a :: modifyLast f rest

/-- PluginRack::undo: if more than one image version exists, remove the last
and mark every tile of the new last version dirty. -/
def PluginRack.undo (s : PluginRack) : PluginRack :=
  if 1 < s.images.length then
    let images1 := s.images.eraseIdx (s.images.length - 1)
    { s with images := modifyLast SplittedImage.request_all_update images1 }
  else s

/-- PluginRack::compute_complete_percentage. -/
def PluginRack.compute_complete_percentage (s : PluginRack) : ℕ :=
  pctFun s.position s.total

/-- PluginRack::load_image_data (and load_image, which differs only in
reading from a path): the images vector is cleared first, then the asset is
decoded; on success the fresh tile set is pushed.  The third-party decoder is
abstracted by its outcome: some tile set, or none for a malformed asset.  The
Bool is true when the call returned Ok. -/
def PluginRack.load_image_data (s : PluginRack) (decoded : Option SplittedImage) :
    PluginRack × Bool :=
  match decoded with
  | some img => ({ s with images := [img] }, true)
  | none => ({ s with images := [] }, false)

/-- PluginRack::start_process: no-op when the chain or the version stack is
empty; otherwise clone the live version, drop the version at index 1 when the
stack holds at least two, push the clone, and reset the job counters.  The
suspend, set_block_size(256 * 256), resume renegotiation loop touches only
native plugin state, not the rack fields.  total is splits.len() - 1; tile
sets produced by image loading always hold at least one tile, so the usize
subtraction never underflows on reachable states. -/
def PluginRack.start_process (s : PluginRack) : PluginRack :=
  if s.plugins.isEmpty || s.images.isEmpty then s
  else
    match s.images.getLast? with
    | none => s
    | some img =>
      let images1 := if 2 ≤ s.images.length then s.images.eraseIdx 1 else s.images
      { s with images := images1 ++ [img], finished := false, position := 0,
               total := img.splits.length - 1 }

/-- PluginRack::stop_process: removes the last image version (panicking when
the vector is empty), resets the job state, and unwraps last_mut on the
remainder (panicking when it is empty).  none models the panic. -/
def PluginRack.stop_process (s : PluginRack) : Option PluginRack :=
  match s.images with
  | [] => none
  | _ :: rest =>
    let images1 := s.images.eraseIdx (s.images.length - 1)
    match rest with
    | [] => none
    | _ :: _ =>
      some { s with images := modifyLast SplittedImage.request_all_update images1,
                    finished := true, position := 0, total := 0 }

/-! ## Tile processing -/

/-- Flatten a grid into its raster-order pixel sequence (pixels()). -/
def gridPixels (g : Grid) : List Pixel := g.flatten

/-- Rebuild a grid from a flat pixel list using the row lengths of a shape
grid (writing through pixels_mut() preserves the raster layout). -/
def reshapeLike (shape : Grid) (flat : List Pixel) : Grid :=
  match shape with
  | [] => []
  | row :: rest => flat.take row.length :: reshapeLike rest (flat.drop row.length)

/-- The output buffer the native effect leaves in channel c: the HostBuffer
channel is allocated with len slots initialized to 0.0 and the effect
overwrites it in place, so the channel always has exactly len entries. -/
def conformChannel (written : List (List ℚ)) (c len : ℕ) : List ℚ :=
  let raw := (written.get? c).getD []
  raw.take len ++ List.replicate (len - (raw.take len).length) 0

/-- One iteration of the plugin loop in PluginRack::process_next over the
tile at index pos: skipped when the instance is absent, bypassed, or reports
no inputs; otherwise the tile pixels are mapped to per-channel sample buffers
(primed with one zero sample), the effect runs, and the output channel
selected by output_channel is blended back through sample_to_rgba.  none
models the index panics (tile position or output channel out of bounds). -/
def processPlugin (pos : ℕ) (splits : List Split) (p : PluginRackInstance) :
    Option (List Split) :=
  match p.inst with
  | none => some splits
  | some inst =>
    if p.bypass || inst.inputs == 0 then some splits
    else
      match splits.get? pos with
      | none => none
      | some sp =>
        let pixels := gridPixels sp.data
        let inputs := (List.range inst.inputs).map
          (fun _ => (0:ℚ) :: pixels.map (rgba_to_sample p.input_channel))
        if p.output_channel < inst.outputs then
          let outChan := (List.range (pixels.length + 1)).map
            (inst.processFn inputs p.output_channel)
          let newPixels := List.zipWith
            (fun pix smp => sample_to_rgba smp p.wet pix p.input_channel)
            pixels outChan
          some (splits.set pos { sp with data := reshapeLike sp.data newPixels })
        else none

/-- PluginRack::process_next: one unit of job work.  An empty chain marks the
job finished; a finished job is a no-op; otherwise the tile at the current
position is pushed through every runnable plugin, marked dirty, and the
position advances, or the job completes when position has reached total (the
completion branch also calls stop_process and suspend on every live
instance, which leaves the rack fields untouched).  none models a panic
(empty version stack or tile index out of bounds). -/
def PluginRack.process_next (s : PluginRack) : Option PluginRack :=
  if s.plugins.isEmpty then some { s with finished := true }
  else if s.finished then some s
  else
    match s.images.getLast? with
    | none => none
    | some img =>
      match s.plugins.foldl
          (fun acc p => acc.bind (fun sp => processPlugin s.position sp p))
          (some img.splits) with
      | none => none
      | some splits1 =>
        match splits1.get? s.position with
        | none => none
        | some sp =>
          let splits2 := splits1.set s.position { sp with needs_update := true }
          let images1 := s.images.dropLast ++ [{ img with splits := splits2 }]
          if s.total ≤ s.position then
            some { s with images := images1, finished := true }
          else
            some { s with images := images1, position := s.position + 1 }

/-! ## Removing a plugin -/

/-- The suspend call guarded by if let Some(instance) in remove_plugin. -/
def suspendEvents (inst : Option VstInstance) : List VstEvent :=
  match inst with
  | some _ => [.suspend]
  | none => []

/-- PluginRack::remove_plugin: suspend the loaded instance when present, then
remove the chain entry.  The trace records the calls in program order, with
dropEntry marking the Vec::remove that frees the handle; none models the
index panic. -/
def PluginRack.remove_plugin (s : PluginRack) (id : ℕ) :
    Option (PluginRack × List VstEvent) :=
  match s.plugins.get? id with
  | none => none
  | some p =>
    some ({ s with plugins := s.plugins.eraseIdx id },
          suspendEvents p.inst ++ [.dropEntry])

/-! ## Localized (area) reprocessing -/

/-- Overwrite a prefix of base with patch, keeping the length of base. -/
def overwriteFrom {α : Type} : List α → List α → List α
  | bs, [] => bs
  | [], _ => []
  | _ :: bs, p :: ps => p :: overwriteFrom bs ps

/-- Write patch into row starting at offset x (image::imageops::replace on
one row, clipped to the destination). -/
def spliceRow {α : Type} (base patch : List α) : ℕ → List α
  | 0 => overwriteFrom base patch
  | x + 1 =>
    match base with
    | [] => []
    | b :: bs => b :: spliceRow bs patch x

/-- Rows of base starting at row y receive the rows of patch at column x. -/
def overlayRows (x : ℕ) : Grid → Grid → Grid
  | bs, [] => bs
  | [], _ => []
  | b :: bs, p :: ps => spliceRow b p x :: overlayRows x bs ps

/-- image::imageops::replace of patch into base at (x, y), clipped. -/
def overlayGrid (base patch : Grid) (x y : ℕ) : Grid :=
  match y, base with
  | _, [] => []
  | 0, bs => overlayRows x bs patch
  | Nat.succ y1, b :: bs => b :: overlayGrid bs patch x y1

/-- image::imageops::crop_imm(data, x, y, w, h).to_image(): the sub-rectangle
clipped to the source bounds. -/
def cropGrid (g : Grid) (x y w h : ℕ) : Grid :=
  ((g.drop y).take h).map (fun row => (row.drop x).take w)

/-- One iteration of the plugin loop in PluginRack::process_area: skipped for
an absent instance, bypass, or zero inputs; otherwise the owning tile is
located by integer division of the area origin by the tile extent, the
sub-image is cropped, the per-channel buffers are built, the full lifecycle
sequence runs on the instance, the processed samples are blended back and
the sub-image is written into the tile, which is marked dirty.  The events
are the lifecycle calls in program order.  none models a panic: empty
version stack, tile index out of bounds, a zero tile extent (modulo by
zero), or an out-of-bounds output channel. -/
def processAreaPlugin (a : Area) (p : PluginRackInstance)
    (images : List SplittedImage) :
    Option (List SplittedImage × List VstEvent) :=
  match p.inst with
  | none => some (images, [])
  | some inst =>
    if p.bypass then some (images, [])
    else if inst.inputs == 0 then some (images, [])
    else
      match images.getLast? with
      | none => none
      | some img =>
        let chunkX := a.x / IMAGE_SPLIT_W
        let chunkY := a.y / IMAGE_SPLIT_H
        let owt := img.origWidth / IMAGE_SPLIT_W
        match img.splits.get? (owt * chunkY + chunkX) with
        | none => none
        | some sp =>
          if sp.loc.width = 0 || sp.loc.height = 0 then none
          else
            let xf := a.x % sp.loc.width
            let yf := a.y % sp.loc.height
            let cropg := cropGrid sp.data xf yf a.width a.height
            let pixels := gridPixels cropg
            let inputs := (List.range inst.inputs).map
              (fun _ => (0:ℚ) :: pixels.map (rgba_to_sample p.input_channel))
            if p.output_channel < inst.outputs then
              let outChan := (List.range (pixels.length + 1)).map
                (inst.processFn inputs p.output_channel)
              let newPixels := List.zipWith
                (fun pix smp => sample_to_rgba smp p.wet pix p.input_channel)
                pixels outChan
              let cropg2 := reshapeLike cropg newPixels
              let sp2 := { sp with data := overlayGrid sp.data cropg2 xf yf,
                                   needs_update := true }
              let img2 := { img with
                splits := img.splits.set (owt * chunkY + chunkX) sp2 }
              some (images.dropLast ++ [img2],
                    [.suspend, .setBlockSize a.area, .resume, .startProcess,
                     .processCall, .stopProcess, .suspend])
            else none

/-- The plugin loop of PluginRack::process_area, tagging each event with the
index of the plugin that received it. -/
def processAreaGo (a : Area) (ps : List PluginRackInstance) (i : ℕ)
    (images : List SplittedImage) :
    Option (List SplittedImage × List (ℕ × VstEvent)) :=
  match ps with
  | [] => some (images, [])
  | p :: rest =>
    match processAreaPlugin a p images with
    | none => none
    | some (images2, evs) =>
      match processAreaGo a rest (i + 1) images2 with
      | none => none
      | some (images3, tr) => some (images3, evs.map (fun e => (i, e)) ++ tr)

/-- PluginRack::process_area: synchronous localized reprocessing of one
rectangle across the whole chain.  none models a panic. -/
def PluginRack.process_area (s : PluginRack) (a : Area) :
    Option (PluginRack × List (ℕ × VstEvent)) :=
  (processAreaGo a s.plugins 0 s.images).map
    (fun r => ({ s with images := r.1 }, r.2))

/-- The lifecycle sequence the spec requires for each runnable handle during
area reprocessing. -/
def areaLifecycle (a : Area) : List VstEvent :=
  [.suspend, .setBlockSize a.area, .resume, .startProcess, .processCall,
   .stopProcess, .suspend]

/-- A handle that actually runs during process_area: loaded, not bypassed,
and with at least one input channel. -/
def runnable (p : PluginRackInstance) : Prop :=
  p.inst.isSome = true ∧ p.bypass = false ∧
    1 ≤ (match p.inst with | some i => i.inputs | none => 0)

/-! ## Reachable rack states

The states a caller can produce through the public operations: construction,
loading a plugin (insert_plugin pushes the handle), loading an image (the
success path leaves exactly one fresh tile set, and every tile set built from
a decoded image holds at least one tile; the failure path leaves the vector
cleared), and the job operations.  Operations whose model returns Option
contribute a successor only when they do not panic.
-/

inductive Reachable : PluginRack → Prop where
  | new : Reachable PluginRack.new
  | load_plugin (s : PluginRack) (p : PluginRackInstance) :
      Reachable s → Reachable { s with plugins := s.plugins ++ [p] }
  | load_image (s : PluginRack) (img : SplittedImage) :
      Reachable s → img.splits ≠ [] → Reachable { s with images := [img] }
  | load_image_fail (s : PluginRack) :
      Reachable s → Reachable { s with images := [] }
  | start (s : PluginRack) : Reachable s → Reachable s.start_process
  | step (s s' : PluginRack) :
      Reachable s → s.process_next = some s' → Reachable s'
  | stop (s s' : PluginRack) :
      Reachable s → s.stop_process = some s' → Reachable s'
  | undo (s : PluginRack) : Reachable s → Reachable s.undo

/-- The job-state invariant that actually holds on reachable states. -/
def RackInv (s : PluginRack) : Prop :=
  s.position ≤ s.total ∧
  (s.finished = true → s.total ≤ s.position) ∧
  (s.plugins = [] → s.position = 0 ∧ s.total = 0) ∧
  (s.finished = false → s.plugins ≠ [])

theorem rackInv_new : RackInv PluginRack.new := by
  refine ⟨le_refl _, fun _ => le_refl _, fun _ => ⟨rfl, rfl⟩, fun h => ?_⟩
  simp [PluginRack.new] at h

theorem rackInv_start (s : PluginRack) (h : RackInv s) :
    RackInv s.start_process := by
  obtain ⟨h1, h2, h3, h4⟩ := h
  unfold PluginRack.start_process
  split
  · exact ⟨h1, h2, h3, h4⟩
  · next hcond =>
    have hp : s.plugins ≠ [] := by
      intro hnil
      simp [hnil] at hcond
    cases hlast : s.images.getLast? with
    | none => exact ⟨h1, h2, h3, h4⟩
    | some img =>
      refine ⟨Nat.zero_le _, ?_, ?_, ?_⟩
      · intro hfin; cases hfin
      · intro hnil; exact absurd hnil hp
      · intro _; exact hp

/-- The four ways a non-panicking process_next call can end, with the effect
on the job counters in each. -/
theorem process_next_cases (s s' : PluginRack) (h : s.process_next = some s') :
    (s.plugins = [] ∧ s' = { s with finished := true }) ∨
    (s.plugins ≠ [] ∧ s.finished = true ∧ s' = s) ∨
    (s.plugins ≠ [] ∧ s.finished = false ∧ s.total ≤ s.position ∧
      s'.plugins = s.plugins ∧ s'.position = s.position ∧ s'.total = s.total ∧
      s'.finished = true) ∨
    (s.plugins ≠ [] ∧ s.finished = false ∧ s.position < s.total ∧
      s'.plugins = s.plugins ∧ s'.position = s.position + 1 ∧ s'.total = s.total ∧
      s'.finished = false) := by
  unfold PluginRack.process_next at h
  split at h
  · next hempty =>
    left
    cases h
    exact ⟨by simpa [List.isEmpty_iff] using hempty, rfl⟩
  · next hempty =>
    have hp : s.plugins ≠ [] := by
      simpa [List.isEmpty_iff] using hempty
    split at h
    · next hfin =>
      right; left
      cases h
      exact ⟨hp, hfin, rfl⟩
    · next hfin =>
      have hfin2 : s.finished = false := by
        simpa using hfin
      split at h
      · cases h
      · split at h
        · cases h
        · next splits1 _ =>
          split at h
          · cases h
          · split at h
            · next hle =>
              cases h
              right; right; left
              exact ⟨hp, hfin2, hle, rfl, rfl, rfl, rfl⟩
            · next hgt =>
              cases h
              right; right; right
              exact ⟨hp, hfin2, by omega, rfl, rfl, rfl, hfin2⟩

theorem rackInv_step (s s' : PluginRack) (h : RackInv s)
    (hstep : s.process_next = some s') : RackInv s' := by
  obtain ⟨h1, h2, h3, h4⟩ := h
  rcases process_next_cases s s' hstep with
    ⟨hp, rfl⟩ | ⟨hp, hfin, rfl⟩ |
    ⟨hp, hfin, hle, e1, e2, e3, e4⟩ | ⟨hp, hfin, hlt, e1, e2, e3, e4⟩
  · obtain ⟨hpos, htot⟩ := h3 hp
    refine ⟨h1, fun _ => ?_, fun _ => ⟨hpos, htot⟩, fun hf => by cases hf⟩
    show s.total ≤ s.position
    omega
  · exact ⟨h1, h2, h3, h4⟩
  · refine ⟨?_, fun _ => ?_, fun hnil => ?_, fun hf => ?_⟩
    · rw [e2, e3]; exact h1
    · rw [e2, e3]; exact hle
    · rw [e1] at hnil; exact absurd hnil hp
    · rw [e4] at hf; cases hf
  · refine ⟨?_, fun hf => ?_, fun hnil => ?_, fun _ => ?_⟩
    · rw [e2, e3]; omega
    · rw [e4] at hf; cases hf
    · rw [e1] at hnil; exact absurd hnil hp
    · rw [e1]; exact hp

theorem rackInv_stop (s s' : PluginRack) (hstop : s.stop_process = some s') :
    RackInv s' := by
  unfold PluginRack.stop_process at hstop
  split at hstop
  · cases hstop
  · split at hstop
    · cases hstop
    · cases hstop
      exact ⟨le_refl _, fun _ => le_refl _, fun _ => ⟨rfl, rfl⟩, fun hf => by cases hf⟩

theorem rackInv_of_reachable (s : PluginRack) (h : Reachable s) : RackInv s := by
  induction h with
  | new => exact rackInv_new
  | load_plugin s p _ ih =>
    obtain ⟨h1, h2, h3, h4⟩ := ih
    refine ⟨h1, h2, fun hnil => ?_, fun _ => ?_⟩
    · exact absurd hnil (by simp)
    · simp
  | load_image s img _ _ ih => exact ih
  | load_image_fail s _ ih => exact ih
  | start s _ ih => exact rackInv_start s ih
  | step s s' _ hstep ih => exact rackInv_step s s' ih hstep
  | stop s s' _ hstop _ => exact rackInv_stop s s' hstop
  | undo s _ ih =>
    unfold PluginRack.undo
    split
    · exact ih
    · exact ih

/-! ## Facts about the rounding model -/

theorem rhe_le (x : ℚ) : (rhe x : ℚ) ≤ x + 1/2 := by
  have hfl : (⌊x⌋ : ℚ) ≤ x := Int.floor_le x
  have hfl2 : x < ⌊x⌋ + 1 := Int.lt_floor_add_one x
  unfold rhe
  split
  · linarith
  · split
    · push_cast; linarith
    · split
      · linarith
      · push_cast; linarith

theorem le_rhe (x : ℚ) : x - 1/2 ≤ (rhe x : ℚ) := by
  have hfl : (⌊x⌋ : ℚ) ≤ x := Int.floor_le x
  have hfl2 : x < ⌊x⌋ + 1 := Int.lt_floor_add_one x
  unfold rhe
  split
  · next h => linarith
  · split
    · push_cast; linarith
    · split
      · next h1 h2 _ => linarith
      · next h1 h2 _ => push_cast; linarith

theorem floor_le_rhe (x : ℚ) : ⌊x⌋ ≤ rhe x := by
  unfold rhe
  split
  · exact le_refl _
  · split
    · omega
    · split <;> omega

theorem rhe_le_floor_add_one (x : ℚ) : rhe x ≤ ⌊x⌋ + 1 := by
  unfold rhe
  split
  · omega
  · split
    · omega
    · split <;> omega

theorem rhe_mono {x y : ℚ} (h : x ≤ y) : rhe x ≤ rhe y := by
  rcases lt_or_eq_of_le (Int.floor_le_floor h) with hlt | heq
  · calc rhe x ≤ ⌊x⌋ + 1 := rhe_le_floor_add_one x
      _ ≤ ⌊y⌋ := by omega
      _ ≤ rhe y := floor_le_rhe y
  · have hxy : x - (⌊y⌋ : ℚ) ≤ y - (⌊y⌋ : ℚ) := by linarith
    unfold rhe
    rw [heq]
    repeat' split
    all_goals first
      | omega
      | contradiction
      | (exfalso; linarith)

theorem two_zpow_log_le (q : ℚ) (hq : 0 < q) : (2:ℚ) ^ Int.log 2 q ≤ q := by
  have h := Int.zpow_log_le_self (b := 2) (R := ℚ) (by norm_num) hq
  have hc : ((2:ℕ) : ℚ) = (2:ℚ) := by norm_num
  rwa [hc] at h

theorem lt_two_zpow_log_succ (q : ℚ) : q < (2:ℚ) ^ (Int.log 2 q + 1) := by
  have h := Int.lt_zpow_succ_log_self (b := 2) (R := ℚ) (by norm_num) q
  have hc : ((2:ℕ) : ℚ) = (2:ℚ) := by norm_num
  rwa [hc] at h

theorem rnd32core_of_pos (q : ℚ) (hq : 0 < q) :
    rnd32core q =
      (rhe (q * (2:ℚ) ^ ((23:ℤ) - Int.log 2 q)) : ℚ) * (2:ℚ) ^ (Int.log 2 q - 23) := by
  simp [rnd32core, not_le.mpr hq]

theorem rnd32core_bounds (q : ℚ) (hq : 0 < q) :
    (q - q / 16777216 ≤ rnd32core q ∧ rnd32core q ≤ q + q / 16777216) ∧
    ((2:ℚ) ^ Int.log 2 q ≤ rnd32core q ∧ rnd32core q ≤ (2:ℚ) ^ (Int.log 2 q + 1)) := by
  set e := Int.log 2 q with he
  have h2 : (2:ℚ) ≠ 0 := by norm_num
  have hp1 : (0:ℚ) < (2:ℚ) ^ ((23:ℤ) - e) := zpow_pos (by norm_num) _
  have hp2 : (0:ℚ) < (2:ℚ) ^ (e - 23) := zpow_pos (by norm_num) _
  have hpe : (0:ℚ) < (2:ℚ) ^ e := zpow_pos (by norm_num) _
  have hE1 : (2:ℚ) ^ ((23:ℤ) - e) * (2:ℚ) ^ (e - 23) = 1 := by
    rw [← zpow_add₀ h2]
    have hz : (23:ℤ) - e + (e - 23) = 0 := by ring
    rw [hz, zpow_zero]
  have h23 : (2:ℚ) ^ (23:ℤ) = 8388608 := by
    norm_num
  have hE2 : (2:ℚ) ^ e * (2:ℚ) ^ ((23:ℤ) - e) = 8388608 := by
    rw [← zpow_add₀ h2]
    have hz : e + ((23:ℤ) - e) = 23 := by ring
    rw [hz, h23]
  have h24 : (2:ℚ) ^ (24:ℤ) = 16777216 := by
    norm_num
  have hE3 : (2:ℚ) ^ (e + 1) * (2:ℚ) ^ ((23:ℤ) - e) = 16777216 := by
    rw [← zpow_add₀ h2]
    have hz : e + 1 + ((23:ℤ) - e) = 24 := by ring
    rw [hz, h24]
  have hE5 : (2:ℚ) ^ (e - 23) * 8388608 = (2:ℚ) ^ e := by
    rw [← h23, ← zpow_add₀ h2]
    have hz : e - 23 + 23 = e := by ring
    rw [hz]
  have h2e1 : (2:ℚ) ^ (e + 1) = (2:ℚ) ^ e * 2 := by
    rw [zpow_add₀ h2, zpow_one]
  set s := q * (2:ℚ) ^ ((23:ℤ) - e) with hs
  set m := rhe s with hm
  have hs_low : (8388608:ℚ) ≤ s := by
    calc (8388608:ℚ) = (2:ℚ) ^ e * (2:ℚ) ^ ((23:ℤ) - e) := hE2.symm
      _ ≤ q * (2:ℚ) ^ ((23:ℤ) - e) :=
        mul_le_mul_of_nonneg_right (two_zpow_log_le q hq) hp1.le
  have hs_high : s < (16777216:ℚ) := by
    calc s < (2:ℚ) ^ (e + 1) * (2:ℚ) ^ ((23:ℤ) - e) :=
        mul_lt_mul_of_pos_right (lt_two_zpow_log_succ q) hp1
      _ = 16777216 := hE3
  have hm_low : s - 1/2 ≤ (m:ℚ) := le_rhe s
  have hm_high : (m:ℚ) ≤ s + 1/2 := rhe_le s
  have hrw : rnd32core q = (m:ℚ) * (2:ℚ) ^ (e - 23) := rnd32core_of_pos q hq
  have hmZ_low : (8388608:ℤ) ≤ m := by
    have hq1 : (8388607:ℚ) < (m:ℚ) := by linarith
    have hq2 : (8388607:ℤ) < m := by exact_mod_cast hq1
    omega
  have hmZ_high : m ≤ (16777216:ℤ) := by
    have hq1 : (m:ℚ) < 16777217 := by linarith
    have hq2 : m < (16777217:ℤ) := by exact_mod_cast hq1
    omega
  have hmQ_low : (8388608:ℚ) ≤ (m:ℚ) := by exact_mod_cast hmZ_low
  have hmQ_high : (m:ℚ) ≤ (16777216:ℚ) := by exact_mod_cast hmZ_high
  have f1 : (s + 1/2) * (2:ℚ) ^ (e - 23) = q + (1/2) * (2:ℚ) ^ (e - 23) := by
    calc (s + 1/2) * (2:ℚ) ^ (e - 23)
        = q * ((2:ℚ) ^ ((23:ℤ) - e) * (2:ℚ) ^ (e - 23)) + (1/2) * (2:ℚ) ^ (e - 23) := by
          rw [hs]; ring
      _ = q + (1/2) * (2:ℚ) ^ (e - 23) := by rw [hE1]; ring
  have f1l : (s - 1/2) * (2:ℚ) ^ (e - 23) = q - (1/2) * (2:ℚ) ^ (e - 23) := by
    calc (s - 1/2) * (2:ℚ) ^ (e - 23)
        = q * ((2:ℚ) ^ ((23:ℤ) - e) * (2:ℚ) ^ (e - 23)) - (1/2) * (2:ℚ) ^ (e - 23) := by
          rw [hs]; ring
      _ = q - (1/2) * (2:ℚ) ^ (e - 23) := by rw [hE1]; ring
  have f2 : (1/2) * (2:ℚ) ^ (e - 23) = (2:ℚ) ^ e / 16777216 := by
    rw [← hE5]; ring
  have hup : rnd32core q ≤ q + q / 16777216 := by
    have i1 : (m:ℚ) * (2:ℚ) ^ (e - 23) ≤ (s + 1/2) * (2:ℚ) ^ (e - 23) :=
      mul_le_mul_of_nonneg_right hm_high hp2.le
    have i2 : (2:ℚ) ^ e ≤ q := two_zpow_log_le q hq
    rw [hrw]
    rw [f1, f2] at i1
    linarith
  have hdown : q - q / 16777216 ≤ rnd32core q := by
    have i1 : (s - 1/2) * (2:ℚ) ^ (e - 23) ≤ (m:ℚ) * (2:ℚ) ^ (e - 23) :=
      mul_le_mul_of_nonneg_right hm_low hp2.le
    have i2 : (2:ℚ) ^ e ≤ q := two_zpow_log_le q hq
    rw [hrw]
    rw [f1l, f2] at i1
    linarith
  have hbin_low : (2:ℚ) ^ e ≤ rnd32core q := by
    have i1 : (8388608:ℚ) * (2:ℚ) ^ (e - 23) ≤ (m:ℚ) * (2:ℚ) ^ (e - 23) :=
      mul_le_mul_of_nonneg_right hmQ_low hp2.le
    rw [hrw]
    calc (2:ℚ) ^ e = (2:ℚ) ^ (e - 23) * 8388608 := hE5.symm
      _ ≤ (m:ℚ) * (2:ℚ) ^ (e - 23) := by linarith
  have hbin_high : rnd32core q ≤ (2:ℚ) ^ (e + 1) := by
    have i1 : (m:ℚ) * (2:ℚ) ^ (e - 23) ≤ (16777216:ℚ) * (2:ℚ) ^ (e - 23) :=
      mul_le_mul_of_nonneg_right hmQ_high hp2.le
    rw [hrw]
    calc (m:ℚ) * (2:ℚ) ^ (e - 23) ≤ (16777216:ℚ) * (2:ℚ) ^ (e - 23) := i1
      _ = 2 * ((2:ℚ) ^ (e - 23) * 8388608) := by ring
      _ = 2 * (2:ℚ) ^ e := by rw [hE5]
      _ = (2:ℚ) ^ (e + 1) := by rw [h2e1]; ring
  exact ⟨⟨hdown, hup⟩, ⟨hbin_low, hbin_high⟩⟩

theorem rnd32core_nonpos (q : ℚ) (hq : q ≤ 0) : rnd32core q = 0 := by
  simp [rnd32core, hq]

theorem rnd32core_pos (q : ℚ) (hq : 0 < q) : 0 < rnd32core q := by
  have h := ((rnd32core_bounds q hq).2).1
  have hpe : (0:ℚ) < (2:ℚ) ^ Int.log 2 q := zpow_pos (by norm_num) _
  linarith

theorem rnd32core_nonneg (q : ℚ) : 0 ≤ rnd32core q := by
  rcases le_or_lt q 0 with h | h
  · rw [rnd32core_nonpos q h]
  · exact (rnd32core_pos q h).le

theorem rnd32core_mono {x y : ℚ} (hxy : x ≤ y) :
    rnd32core x ≤ rnd32core y := by
  rcases le_or_lt x 0 with hx | hx
  · rw [rnd32core_nonpos x hx]
    exact rnd32core_nonneg y
  · have hy : 0 < y := lt_of_lt_of_le hx hxy
    have hlog : Int.log 2 x ≤ Int.log 2 y := Int.log_mono_right hx hxy
    rcases eq_or_lt_of_le hlog with heq | hlt
    · rw [rnd32core_of_pos x hx, rnd32core_of_pos y hy, ← heq]
      have hp1 : (0:ℚ) < (2:ℚ) ^ ((23:ℤ) - Int.log 2 x) := zpow_pos (by norm_num) _
      have hp2 : (0:ℚ) ≤ (2:ℚ) ^ (Int.log 2 x - 23) := (zpow_pos (by norm_num) _).le
      have hs : x * (2:ℚ) ^ ((23:ℤ) - Int.log 2 x) ≤ y * (2:ℚ) ^ ((23:ℤ) - Int.log 2 x) :=
        mul_le_mul_of_nonneg_right hxy hp1.le
      have hr : (rhe (x * (2:ℚ) ^ ((23:ℤ) - Int.log 2 x)) : ℚ) ≤
          (rhe (y * (2:ℚ) ^ ((23:ℤ) - Int.log 2 x)) : ℚ) := by
        exact_mod_cast rhe_mono hs
      exact mul_le_mul_of_nonneg_right hr hp2
    · have h1 : rnd32core x ≤ (2:ℚ) ^ (Int.log 2 x + 1) :=
        ((rnd32core_bounds x hx).2).2
      have h2 : (2:ℚ) ^ Int.log 2 y ≤ rnd32core y :=
        ((rnd32core_bounds y hy).2).1
      have h3 : (2:ℚ) ^ (Int.log 2 x + 1) ≤ (2:ℚ) ^ Int.log 2 y :=
        zpow_le_zpow_right₀ one_le_two (by omega)
      linarith

theorem log2_eq (q : ℚ) (e : ℤ) (hq : 0 < q) (h1 : (2:ℚ) ^ e ≤ q)
    (h2 : q < (2:ℚ) ^ (e + 1)) : Int.log 2 q = e := by
  have hc : ((2:ℕ) : ℚ) = (2:ℚ) := by norm_num
  have ha : e ≤ Int.log 2 q := by
    rw [← Int.zpow_le_iff_le_log (by norm_num) hq, hc]
    exact h1
  have hb : Int.log 2 q < e + 1 := by
    rw [← Int.lt_zpow_iff_log_lt (by norm_num) hq, hc]
    exact h2
  omega

theorem rhe_eval_low (x : ℚ) (n : ℤ) (h1 : (n:ℚ) ≤ x) (h2 : x < (n:ℚ) + 1/2) :
    rhe x = n := by
  have hf : ⌊x⌋ = n := Int.floor_eq_iff.mpr ⟨h1, by linarith⟩
  unfold rhe
  rw [hf, if_pos (by linarith)]

theorem rhe_eval_high (x : ℚ) (n : ℤ) (h1 : (n:ℚ) + 1/2 < x)
    (h2 : x < (n:ℚ) + 1) : rhe x = n + 1 := by
  have hf : ⌊x⌋ = n := Int.floor_eq_iff.mpr ⟨by linarith, by linarith⟩
  unfold rhe
  rw [hf, if_neg (by linarith), if_pos (by linarith)]

theorem rnd32core_eval (q : ℚ) (e m : ℤ) (r : ℚ) (hq : 0 < q)
    (h1 : (2:ℚ) ^ e ≤ q) (h2 : q < (2:ℚ) ^ (e + 1))
    (h3 : rhe (q * (2:ℚ) ^ ((23:ℤ) - e)) = m)
    (h4 : (m:ℚ) * (2:ℚ) ^ (e - 23) = r) : rnd32core q = r := by
  rw [rnd32core_of_pos q hq, log2_eq q e hq h1 h2, h3, h4]

theorem rnd32core_one : rnd32core 1 = 1 := by
  refine rnd32core_eval 1 0 8388608 1 one_pos (by norm_num) (by norm_num) ?_ (by norm_num)
  have hx : (1:ℚ) * (2:ℚ) ^ ((23:ℤ) - 0) = ((8388608:ℤ):ℚ) := by norm_num
  rw [hx]
  exact rhe_eval_low _ 8388608 (by norm_num) (by norm_num)

theorem rnd32core_hundred : rnd32core 100 = 100 := by
  refine rnd32core_eval 100 6 13107200 100 (by norm_num) (by norm_num) (by norm_num) ?_ ?_
  · have hx : (100:ℚ) * (2:ℚ) ^ ((23:ℤ) - 6) = ((13107200:ℤ):ℚ) := by norm_num
    rw [hx]
    exact rhe_eval_low _ 13107200 (by norm_num) (by norm_num)
  · norm_num

/-! ## Facts about the percentage computation -/

theorem F32_toUsize_le (x : F32) : x.toUsize ≤ 2 ^ 64 - 1 := by
  cases x with
  | nan => exact Nat.zero_le _
  | inf => exact le_refl _
  | val q =>
    simp only [F32.toUsize]
    split
    · exact Nat.zero_le _
    · exact min_le_left _ _

theorem F32_toUsize_val_mono {x y : ℚ} (h : x ≤ y) :
    (F32.val x).toUsize ≤ (F32.val y).toUsize := by
  simp only [F32.toUsize]
  split
  · exact Nat.zero_le _
  · next hx =>
    rw [if_neg (fun hy0 => hx (le_trans h hy0))]
    exact min_le_min (le_refl _) (Nat.floor_le_floor h)

theorem pctFun_zero_zero : pctFun 0 0 = 0 := by
  have h0 : rnd32core ((0:ℕ):ℚ) = 0 := by
    rw [Nat.cast_zero]
    exact rnd32core_nonpos 0 le_rfl
  unfold pctFun F32.ofNat
  rw [h0]
  simp [F32.div, F32.mul, F32.toUsize]

theorem pctFun_zero_left (t : ℕ) (ht : 0 < t) : pctFun 0 t = 0 := by
  have ht' : (0:ℚ) < (t:ℚ) := by exact_mod_cast ht
  have hb : 0 < rnd32core (t:ℚ) := rnd32core_pos _ ht'
  have h0 : rnd32core ((0:ℕ):ℚ) = 0 := by
    rw [Nat.cast_zero]
    exact rnd32core_nonpos 0 le_rfl
  have hz : rnd32core ((0:ℚ) / rnd32core (t:ℚ)) = 0 := by
    rw [zero_div]
    exact rnd32core_nonpos 0 le_rfl
  have hz2 : rnd32core ((0:ℚ) * 100) = 0 := by
    rw [zero_mul]
    exact rnd32core_nonpos 0 le_rfl
  unfold pctFun F32.ofNat
  rw [h0]
  simp only [F32.div, if_neg hb.ne', hz, F32.mul, hz2]
  rw [if_neg (by norm_num)]
  simp [F32.toUsize]

theorem pctFun_pos_zero (p : ℕ) (hp : 0 < p) : pctFun p 0 = 2 ^ 64 - 1 := by
  have hp' : (0:ℚ) < (p:ℚ) := by exact_mod_cast hp
  have ha : 0 < rnd32core (p:ℚ) := rnd32core_pos _ hp'
  have h0 : rnd32core ((0:ℕ):ℚ) = 0 := by
    rw [Nat.cast_zero]
    exact rnd32core_nonpos 0 le_rfl
  unfold pctFun F32.ofNat
  rw [h0]
  simp only [F32.div, if_pos rfl, if_neg ha.ne']
  simp [F32.mul, F32.toUsize]

theorem pctFun_self (t : ℕ) (ht : 0 < t) : pctFun t t = 100 := by
  have ht' : (0:ℚ) < (t:ℚ) := by exact_mod_cast ht
  have hb : 0 < rnd32core (t:ℚ) := rnd32core_pos _ ht'
  unfold pctFun F32.ofNat
  simp only [F32.div, if_neg hb.ne']
  rw [div_self hb.ne', rnd32core_one]
  simp only [F32.mul, one_mul, rnd32core_hundred]
  rw [if_neg (by norm_num)]
  simp only [F32.toUsize]
  rw [if_neg (by norm_num)]
  norm_num

theorem pctFun_mono (p q t : ℕ) (h : p ≤ q) : pctFun p t ≤ pctFun q t := by
  rcases Nat.eq_zero_or_pos t with ht | ht
  · subst ht
    rcases Nat.eq_zero_or_pos p with hp | hp
    · subst hp
      rw [pctFun_zero_zero]
      exact Nat.zero_le _
    · rw [pctFun_pos_zero p hp, pctFun_pos_zero q (lt_of_lt_of_le hp h)]
  · have ht' : (0:ℚ) < (t:ℚ) := by exact_mod_cast ht
    have hb : 0 < rnd32core (t:ℚ) := rnd32core_pos _ ht'
    have hcast : (p:ℚ) ≤ (q:ℚ) := by exact_mod_cast h
    have ha : rnd32core (p:ℚ) ≤ rnd32core (q:ℚ) := rnd32core_mono hcast
    have hdiv : rnd32core (p:ℚ) / rnd32core (t:ℚ) ≤ rnd32core (q:ℚ) / rnd32core (t:ℚ) := by
      rw [div_eq_mul_inv, div_eq_mul_inv]
      exact mul_le_mul_of_nonneg_right ha (inv_nonneg.mpr hb.le)
    have hv : rnd32core (rnd32core (p:ℚ) / rnd32core (t:ℚ)) ≤
        rnd32core (rnd32core (q:ℚ) / rnd32core (t:ℚ)) := rnd32core_mono hdiv
    have hw : rnd32core (rnd32core (rnd32core (p:ℚ) / rnd32core (t:ℚ)) * 100) ≤
        rnd32core (rnd32core (rnd32core (q:ℚ) / rnd32core (t:ℚ)) * 100) :=
      rnd32core_mono (mul_le_mul_of_nonneg_right hv (by norm_num))
    unfold pctFun F32.ofNat
    simp only [F32.div, if_neg hb.ne', F32.mul]
    split
    · next hbig =>
      rw [if_pos (le_trans hbig hw)]
    · split
      · exact F32_toUsize_le _
      · exact F32_toUsize_val_mono hw

theorem pctFun_close (p t : ℕ) (ht : 0 < t) (hpt : p ≤ t) :
    pctFun p t ≤ 100 * p / t + 1 ∧ 100 * p / t ≤ pctFun p t + 1 := by
  rcases Nat.eq_zero_or_pos p with hp | hp
  · subst hp
    rw [pctFun_zero_left t ht]
    constructor
    · exact Nat.zero_le _
    · simp [Nat.div_eq_of_lt ht]
  · have ht' : (0:ℚ) < (t:ℚ) := by exact_mod_cast ht
    have hp' : (0:ℚ) < (p:ℚ) := by exact_mod_cast hp
    have hpt' : (p:ℚ) ≤ (t:ℚ) := by exact_mod_cast hpt
    set a := rnd32core (p:ℚ) with hadef
    set b := rnd32core (t:ℚ) with hbdef
    have hb : 0 < b := rnd32core_pos _ ht'
    have ha : 0 < a := rnd32core_pos _ hp'
    have hba := (rnd32core_bounds (p:ℚ) hp').1
    have hbb := (rnd32core_bounds (t:ℚ) ht').1
    have ha_up : a ≤ (p:ℚ) * (16777217/16777216) := by
      have h := hba.2; rw [← hadef] at h; linarith
    have ha_lo : (p:ℚ) * (16777215/16777216) ≤ a := by
      have h := hba.1; rw [← hadef] at h; linarith
    have hb_up : b ≤ (t:ℚ) * (16777217/16777216) := by
      have h := hbb.2; rw [← hbdef] at h; linarith
    have hb_lo : (t:ℚ) * (16777215/16777216) ≤ b := by
      have h := hbb.1; rw [← hbdef] at h; linarith
    set z1 := a / b with hz1def
    have hz1 : 0 < z1 := div_pos ha hb
    have hz_up : z1 ≤ ((p:ℚ) * (16777217/16777216)) / ((t:ℚ) * (16777215/16777216)) :=
      div_le_div₀ (by positivity) ha_up (by positivity) hb_lo
    have hz_lo : ((p:ℚ) * (16777215/16777216)) / ((t:ℚ) * (16777217/16777216)) ≤ z1 :=
      div_le_div₀ ha.le ha_lo hb hb_up
    have heq_up : ((p:ℚ) * (16777217/16777216)) / ((t:ℚ) * (16777215/16777216)) =
        ((p:ℚ)/t) * (16777217/16777215) := by
      field_simp
    have heq_lo : ((p:ℚ) * (16777215/16777216)) / ((t:ℚ) * (16777217/16777216)) =
        ((p:ℚ)/t) * (16777215/16777217) := by
      field_simp
    rw [heq_up] at hz_up
    rw [heq_lo] at hz_lo
    set v := rnd32core z1 with hvdef
    have hv_pos : 0 < v := rnd32core_pos _ hz1
    have hbv := (rnd32core_bounds z1 hz1).1
    have hv_up : v ≤ z1 * (16777217/16777216) := by
      have h := hbv.2; rw [← hvdef] at h; linarith
    have hv_lo : z1 * (16777215/16777216) ≤ v := by
      have h := hbv.1; rw [← hvdef] at h; linarith
    set w := rnd32core (v * 100) with hwdef
    have hv100 : 0 < v * 100 := by positivity
    have hbw := (rnd32core_bounds (v * 100) hv100).1
    have hw_up : w ≤ (v * 100) * (16777217/16777216) := by
      have h := hbw.2; rw [← hwdef] at h; linarith
    have hw_lo : (v * 100) * (16777215/16777216) ≤ w := by
      have h := hbw.1; rw [← hwdef] at h; linarith
    have hw_pos : 0 < w := by rw [hwdef]; exact rnd32core_pos _ hv100
    have hu1 : (p:ℚ)/t ≤ 1 := by rw [div_le_one ht']; exact hpt'
    have hu0 : (0:ℚ) ≤ (p:ℚ)/t := by positivity
    have hXup : w ≤ 100 * ((p:ℚ)/t) + 1/2 := by linarith
    have hXlo : 100 * ((p:ℚ)/t) - 1/2 ≤ w := by linarith
    have hwle : w ≤ (101:ℚ) := by linarith
    have hsmall : w < (2:ℚ) ^ (128:ℕ) := lt_of_le_of_lt hwle (by norm_num)
    have hfl_le : ⌊w⌋₊ ≤ 101 := by
      have h := Nat.floor_le_floor hwle
      simpa using h
    have hpct : pctFun p t = ⌊w⌋₊ := by
      unfold pctFun F32.ofNat
      rw [← hadef, ← hbdef]
      simp only [F32.div, if_neg hb.ne']
      rw [← hz1def, ← hvdef]
      simp only [F32.mul]
      rw [← hwdef, if_neg (not_le.mpr hsmall)]
      simp only [F32.toUsize]
      rw [if_neg (not_le.mpr hw_pos)]
      exact min_eq_right (by omega)
    have hXfloor : ⌊(100:ℚ) * ((p:ℚ)/t)⌋₊ = 100 * p / t := by
      have h1 : (100:ℚ) * ((p:ℚ)/t) = ((100 * p : ℕ):ℚ) / ((t:ℕ):ℚ) := by
        push_cast
        ring
      rw [h1, Nat.floor_div_nat, Nat.floor_natCast]
    constructor
    · rw [hpct, ← hXfloor]
      have h1 : w ≤ (100:ℚ) * ((p:ℚ)/t) + 1 := by linarith
      calc ⌊w⌋₊ ≤ ⌊(100:ℚ) * ((p:ℚ)/t) + 1⌋₊ := Nat.floor_le_floor h1
        _ = ⌊(100:ℚ) * ((p:ℚ)/t)⌋₊ + 1 := Nat.floor_add_one (by positivity)
    · rw [hpct, ← hXfloor]
      have h1 : (100:ℚ) * ((p:ℚ)/t) ≤ w + 1 := by linarith
      calc ⌊(100:ℚ) * ((p:ℚ)/t)⌋₊ ≤ ⌊w + 1⌋₊ := Nat.floor_le_floor h1
        _ = ⌊w⌋₊ + 1 := Nat.floor_add_one hw_pos.le

theorem rnd32core_53 : rnd32core (53:ℚ) = 53 := by
  refine rnd32core_eval 53 5 13893632 53 (by norm_num) (by norm_num) (by norm_num) ?_ ?_
  · rw [show (53:ℚ) * (2:ℚ) ^ ((23:ℤ) - 5) = ((13893632:ℤ):ℚ) by norm_num]
    exact rhe_eval_low _ 13893632 (by norm_num) (by norm_num)
  · norm_num

theorem rnd32core_53_100 : rnd32core ((53:ℚ)/100) = 8891924/16777216 := by
  refine rnd32core_eval ((53:ℚ)/100) (-1) 8891924 (8891924/16777216)
    (by norm_num) (by norm_num) (by norm_num) ?_ ?_
  · rw [show ((53:ℚ)/100) * (2:ℚ) ^ ((23:ℤ) - (-1)) = (222298112/25 : ℚ) by norm_num]
    rw [show (222298112/25 : ℚ) = ((8891924:ℤ):ℚ) + 12/25 by norm_num]
    have h := rhe_eval_low (((8891924:ℤ):ℚ) + 12/25) 8891924 (by norm_num) (by norm_num)
    exact h
  · norm_num

theorem rnd32core_53pct : rnd32core ((8891924/16777216:ℚ) * 100) = 13893631/262144 := by
  rw [show ((8891924/16777216:ℚ) * 100) = (55574525/1048576 : ℚ) by norm_num]
  refine rnd32core_eval (55574525/1048576 : ℚ) 5 13893631 (13893631/262144)
    (by norm_num) (by norm_num) (by norm_num) ?_ ?_
  · rw [show ((55574525/1048576:ℚ)) * (2:ℚ) ^ ((23:ℤ) - 5) = ((13893631:ℤ):ℚ) + 1/4 by norm_num]
    exact rhe_eval_low _ 13893631 (by norm_num) (by norm_num)
  · norm_num

theorem pctFun_53_100 : pctFun 53 100 = 52 := by
  have h53 : rnd32core ((53:ℕ):ℚ) = 53 := by
    rw [show ((53:ℕ):ℚ) = (53:ℚ) by norm_num]
    exact rnd32core_53
  have h100 : rnd32core ((100:ℕ):ℚ) = 100 := by
    rw [show ((100:ℕ):ℚ) = (100:ℚ) by norm_num]
    exact rnd32core_hundred
  unfold pctFun F32.ofNat
  rw [h53, h100]
  simp only [F32.div]
  rw [if_neg (by norm_num : ¬(100:ℚ) = 0), rnd32core_53_100]
  simp only [F32.mul]
  rw [rnd32core_53pct]
  rw [if_neg (by norm_num : ¬(2:ℚ) ^ (128:ℕ) ≤ 13893631/262144)]
  simp only [F32.toUsize]
  rw [if_neg (by norm_num : ¬(13893631/262144:ℚ) ≤ 0)]
  have hfl : ⌊(13893631/262144:ℚ)⌋₊ = 52 := by
    rw [Nat.floor_eq_iff (by norm_num)]
    norm_num
  rw [hfl]
  exact min_eq_right (by norm_num)

/-! ## List facts used by the claims -/

theorem eraseIdx_length_sub_one {α : Type} (l : List α) :
    l.eraseIdx (l.length - 1) = l.dropLast := by
  induction l with
  | nil => rfl
  | cons a t ih =>
    cases t with
    | nil => rfl
    | cons b u =>
      show (a :: b :: u).eraseIdx (u.length + 1) = a :: (b :: u).dropLast
      have h : (a :: b :: u).eraseIdx (u.length + 1) =
          a :: (b :: u).eraseIdx (b :: u).length.pred := by
        simp [List.eraseIdx]
      rw [h, ← ih]
      rfl

/-! ## Concrete states used by the counterexamples and witnesses -/

def onePixel : Pixel := { r := 1, g := 2, b := 3, a := 4 }

/-- A single one-pixel tile. -/
def tileA : Split :=
  { data := [[onePixel]], needs_update := false, loc := { x := 0, y := 0, width := 1, height := 1 } }

/-- A one-tile image. -/
def imgA : SplittedImage := { splits := [tileA], origWidth := 1, origHeight := 1 }

/-- imgA with its tile marked dirty. -/
def imgAdirty : SplittedImage :=
  { splits := [{ data := [[onePixel]], needs_update := true,
                 loc := { x := 0, y := 0, width := 1, height := 1 } }],
    origWidth := 1, origHeight := 1 }

/-- A one-tile image with different pixel content than imgA. -/
def imgB : SplittedImage :=
  { splits := [{ data := [[{ r := 9, g := 9, b := 9, a := 9 }]], needs_update := false,
                 loc := { x := 0, y := 0, width := 1, height := 1 } }],
    origWidth := 1, origHeight := 1 }

/-- A two-tile image. -/
def img2 : SplittedImage :=
  { splits := [tileA,
               { data := [[onePixel]], needs_update := false,
                 loc := { x := 1, y := 0, width := 1, height := 1 } }],
    origWidth := 2, origHeight := 1 }

/-- A plugin handle whose native instance failed to load. -/
def nullPlugin : PluginRackInstance :=
  { inst := none, bypass := false, input_channel := .red, output_channel := 0, wet := 1 }

/-- After new() and load_plugin. -/
def c1s2 : PluginRack :=
  { plugins := [nullPlugin], images := [], position := 0, total := 0, finished := true }

/-- After loading a one-tile image. -/
def c1s3 : PluginRack :=
  { plugins := [nullPlugin], images := [imgA], position := 0, total := 0, finished := true }

/-- After start_process on the one-tile image: a running job whose position
already equals total. -/
def c1s4 : PluginRack :=
  { plugins := [nullPlugin], images := [imgA, imgA], position := 0, total := 0,
    finished := false }

theorem reachable_c1s4 : Reachable c1s4 := by
  have h1 : Reachable c1s2 :=
    Reachable.load_plugin PluginRack.new nullPlugin Reachable.new
  have h2 : Reachable c1s3 :=
    Reachable.load_image c1s2 imgA h1 (by decide)
  exact Reachable.start c1s3 h2

/-- C1, counterexample: a reachable state (start_process called on a loaded
single-tile image with a nonempty chain) in which position has reached total
and the chain is nonempty, yet the finished flag is false — the claimed
equivalence fails in the right-to-left direction. -/
theorem c1_counterexample :
    Reachable c1s4 ∧ c1s4.finished = false ∧ c1s4.total ≤ c1s4.position ∧
      c1s4.plugins ≠ [] := by
  refine ⟨reachable_c1s4, rfl, le_refl _, ?_⟩
  intro h
  cases h

/-- C1, amended: in every reachable PluginRack state, 0 ≤ position ≤ total
holds, and when the finished flag is true, position has reached total or the
plugin chain is empty.  The converse implication of the original claim is
false: right after start_process on a single-tile image (and, more generally,
in the running state just before the final process_next of any job) position
has reached total while finished is still false. -/
theorem c1_job_state_invariant (s : PluginRack) (h : Reachable s) :
    s.position ≤ s.total ∧
      (s.finished = true → s.total ≤ s.position ∨ s.plugins = []) := by
  have hi := rackInv_of_reachable s h
  exact ⟨hi.1, fun hf => Or.inl (hi.2.1 hf)⟩

/-- C1, witness: the invariant instantiated at the freshly constructed rack. -/
theorem c1_job_state_invariant_witness :
    Reachable PluginRack.new ∧
      (PluginRack.new.position ≤ PluginRack.new.total ∧
        (PluginRack.new.finished = true →
          PluginRack.new.total ≤ PluginRack.new.position ∨
            PluginRack.new.plugins = [])) :=
  ⟨Reachable.new, c1_job_state_invariant PluginRack.new Reachable.new⟩

/-- The state after process_next completes the single-tile job of c1s4. -/
def c2s5 : PluginRack :=
  { plugins := [nullPlugin], images := [imgA, imgAdirty], position := 0, total := 0,
    finished := true }

/-- C2, amended: across one process_next call the reported percentage never
decreases, and when the call completes a running job the percentage is
exactly 100 whenever total is positive; for a single-tile job (total = 0) the
completed percentage is 0, not 100 (0/0 is NaN in f32 and casts to 0). -/
theorem c2_progress (s s' : PluginRack) (hr : Reachable s)
    (hstep : s.process_next = some s') :
    s.compute_complete_percentage ≤ s'.compute_complete_percentage ∧
      (s.finished = false → s'.finished = true →
        (0 < s.total → s'.compute_complete_percentage = 100) ∧
        (s.total = 0 → s'.compute_complete_percentage = 0)) := by
  have hi := rackInv_of_reachable s hr
  rcases process_next_cases s s' hstep with
    ⟨hp, rfl⟩ | ⟨hp, hfin, rfl⟩ |
    ⟨hp, hfin, hle, e1, e2, e3, e4⟩ | ⟨hp, hfin, hlt, e1, e2, e3, e4⟩
  · refine ⟨le_refl _, fun hf _ => ?_⟩
    exact (hi.2.2.2 hf hp).elim
  · refine ⟨le_refl _, fun hf _ => ?_⟩
    rw [hf] at hfin
    cases hfin
  · constructor
    · unfold PluginRack.compute_complete_percentage
      rw [e2, e3]
    · intro _ _
      constructor
      · intro htpos
        have hpt : s.position = s.total := le_antisymm hi.1 hle
        unfold PluginRack.compute_complete_percentage
        rw [e2, e3, hpt]
        exact pctFun_self s.total htpos
      · intro ht0
        have hx := hi.1
        have hp0 : s.position = 0 := by omega
        unfold PluginRack.compute_complete_percentage
        rw [e2, e3, hp0, ht0]
        exact pctFun_zero_zero
  · constructor
    · unfold PluginRack.compute_complete_percentage
      rw [e2, e3]
      exact pctFun_mono _ _ _ (Nat.le_succ _)
    · intro _ hf'
      rw [e4] at hf'
      cases hf'

/-- C2, counterexample: a complete run of a single-tile job.  The job has run
(start_process then process_next), the state is Complete (finished is true),
yet the reported percentage is 0, not 100: position and total are both 0 and
0.0 / 0.0 * 100.0 is NaN, which the usize cast maps to 0. -/
theorem c2_counterexample :
    Reachable c1s4 ∧ c1s4.finished = false ∧ c1s4.process_next = some c2s5 ∧
      c2s5.finished = true ∧ c2s5.compute_complete_percentage = 0 :=
  ⟨reachable_c1s4, rfl, rfl, rfl, pctFun_zero_zero⟩

/-- C2, witness: the amended statement instantiated on the single-tile run. -/
theorem c2_progress_witness :
    Reachable c1s4 ∧ c1s4.process_next = some c2s5 ∧ c1s4.finished = false ∧
      c2s5.finished = true ∧ c1s4.total = 0 ∧
      c1s4.compute_complete_percentage ≤ c2s5.compute_complete_percentage ∧
      c2s5.compute_complete_percentage = 0 := by
  have h := c2_progress c1s4 c2s5 reachable_c1s4 rfl
  exact ⟨reachable_c1s4, rfl, rfl, rfl, rfl, h.1, (h.2 rfl rfl).2 rfl⟩

/-- An image loaded, empty effect chain. -/
def c3s : PluginRack :=
  { plugins := [], images := [img2], position := 0, total := 0, finished := true }

/-- C3, counterexample: with a two-tile image loaded and an empty chain,
start_process is a complete no-op: it neither pushes a working copy nor sets
position and total to tile_count - 1 (= 1); both remain 0. -/
theorem c3_counterexample :
    c3s.start_process = c3s ∧
      c3s.images.map (fun i => i.splits.length) = [2] ∧
      c3s.start_process.position = 0 ∧ c3s.start_process.total = 0 ∧
      ¬ c3s.start_process.total = 2 - 1 := by
  refine ⟨rfl, rfl, rfl, rfl, ?_⟩
  intro h
  cases h

/-- C3, amended: with an empty effect chain, start_process is a no-op: the
whole state — job counters, finished flag, and every image version with all
its pixels — is returned unchanged; in particular position and total are not
set to tile_count - 1 and finished simply keeps its previous value. -/
theorem c3_empty_chain_noop (s : PluginRack) (h : s.plugins = []) :
    s.start_process = s := by
  unfold PluginRack.start_process
  rw [h]
  simp

/-- C3, witness: the no-op instantiated on a rack holding a two-tile image. -/
theorem c3_empty_chain_noop_witness :
    c3s.plugins = [] ∧ c3s.start_process = c3s :=
  ⟨rfl, c3_empty_chain_noop c3s rfl⟩

/-- A rack with one loaded image version. -/
def c4s : PluginRack :=
  { plugins := [], images := [imgA], position := 0, total := 0, finished := true }

/-- C4, counterexample: load_image_data on a malformed asset (the decoder
yields no image) surfaces the error, but the images vector has already been
cleared: afterwards it is empty and in particular differs from its value
before the call. -/
theorem c4_counterexample :
    (c4s.load_image_data none).2 = false ∧
      (c4s.load_image_data none).1.images = [] ∧
      c4s.images ≠ [] ∧
      (c4s.load_image_data none).1.images ≠ c4s.images := by
  refine ⟨rfl, rfl, ?_, ?_⟩ <;> decide

/-- C4, amended: load_image (and load_image_data) clears the images vector
before decoding, so a malformed asset surfaces a decode error with the
version stack already cleared — the images vector after a failed call is
empty, not equal to its previous value. -/
theorem c4_load_error_clears (s : PluginRack) :
    (s.load_image_data none).2 = false ∧ (s.load_image_data none).1.images = [] :=
  ⟨rfl, rfl⟩

/-- A rack holding two image versions and a nonempty chain. -/
def c5s : PluginRack :=
  { plugins := [nullPlugin], images := [imgA, imgB], position := 0, total := 0,
    finished := true }

/-- C5, counterexample: with versions [imgA, imgB] (imgA the oldest, at the
front), start_process drops the version at index 1 — not the front — and
pushes the clone of the live version, giving [imgA, imgB]; the claimed
front-removal would give [imgB, imgB]. -/
theorem c5_counterexample :
    2 ≤ c5s.images.length ∧
      c5s.start_process.images = [imgA, imgB] ∧
      c5s.start_process.images ≠ c5s.images.eraseIdx 0 ++ [imgB] := by
  refine ⟨by decide, rfl, ?_⟩
  decide

/-- C5, amended: with a nonempty chain and an image loaded, start_process
appends a clone of the live version to the version stack; when the stack
already holds at least two versions the version at index 1 is removed first —
the front of the stack (index 0, the oldest version) is always retained — and
the stack length stays at most 2 whenever it was at most 2 before, so at most
one prior version is retained in addition to the live one. -/
theorem c5_version_stack (s : PluginRack) (img : SplittedImage)
    (hp : s.plugins ≠ []) (hlast : s.images.getLast? = some img) :
    s.start_process.images =
      (if 2 ≤ s.images.length then s.images.eraseIdx 1 else s.images) ++ [img] ∧
      (s.images.length ≤ 2 → s.start_process.images.length ≤ 2) := by
  have hne : s.images ≠ [] := by
    intro h
    rw [h] at hlast
    cases hlast
  have hpe : s.plugins.isEmpty = false := by
    simpa [List.isEmpty_iff] using hp
  have hie : s.images.isEmpty = false := by
    simpa [List.isEmpty_iff] using hne
  unfold PluginRack.start_process
  rw [hpe, hie, hlast]
  simp only [Bool.or_self, Bool.false_eq_true, if_false]
  constructor
  · trivial
  · intro hlen
    rw [List.length_append]
    split
    · next h2 =>
      rw [List.length_eraseIdx_of_lt (by omega)]
      simp
      omega
    · next h2 =>
      simp
      omega

/-- C5, witness: the amended statement instantiated on the two-version
stack [imgA, imgB]. -/
theorem c5_version_stack_witness :
    c5s.plugins ≠ [] ∧ c5s.images.getLast? = some imgB ∧
      c5s.start_process.images =
        (if 2 ≤ c5s.images.length then c5s.images.eraseIdx 1 else c5s.images) ++ [imgB] ∧
      (c5s.images.length ≤ 2 → c5s.start_process.images.length ≤ 2) := by
  have hp : c5s.plugins ≠ [] := List.cons_ne_nil _ _
  have h := c5_version_stack c5s imgB hp rfl
  exact ⟨hp, rfl, h.1, h.2⟩

/-- A job state with position 53 of total 100. -/
def c6sA : PluginRack :=
  { plugins := [], images := [], position := 53, total := 100, finished := false }

/-- A job state with positive position but total 0. -/
def c6sB : PluginRack :=
  { plugins := [], images := [], position := 1, total := 0, finished := false }

/-- C6, counterexample: at position 53 of total 100 the f32 computation
returns 52 while the truncated exact ratio is 53 (53/100 rounds down in f32
and 100 times it lands just below 53); and at total 0 with position 1 the
result is the saturated usize maximum, not 0 (1.0 / 0.0 is infinity). -/
theorem c6_counterexample :
    c6sA.compute_complete_percentage = 52 ∧
      100 * c6sA.position / c6sA.total = 53 ∧
      c6sA.compute_complete_percentage ≠ 100 * c6sA.position / c6sA.total ∧
      c6sB.compute_complete_percentage = 2 ^ 64 - 1 ∧
      c6sB.compute_complete_percentage ≠ 0 := by
  have h1 : c6sA.compute_complete_percentage = 52 := pctFun_53_100
  have h2 : c6sB.compute_complete_percentage = 2 ^ 64 - 1 :=
    pctFun_pos_zero 1 one_pos
  refine ⟨h1, by decide, ?_, h2, ?_⟩
  · rw [h1]
    decide
  · rw [h2]
    decide

/-- C6, amended: compute_complete_percentage evaluates the ratio in f32, so
for a running job (position ≤ total, total positive) it returns the truncated
exact percentage up to an error of at most one in either direction — it can
differ from the exact truncation, as at 53/100; when total is 0 it returns 0
exactly when position is also 0 (NaN casts to 0), and saturates to the usize
maximum when position is positive (infinity). -/
theorem c6_percentage (s : PluginRack) :
    (0 < s.total → s.position ≤ s.total →
      s.compute_complete_percentage ≤ 100 * s.position / s.total + 1 ∧
        100 * s.position / s.total ≤ s.compute_complete_percentage + 1) ∧
    (s.total = 0 → s.position = 0 → s.compute_complete_percentage = 0) ∧
    (s.total = 0 → 0 < s.position → s.compute_complete_percentage = 2 ^ 64 - 1) := by
  refine ⟨fun ht hpt => pctFun_close s.position s.total ht hpt, fun ht hp => ?_, fun ht hp => ?_⟩
  · unfold PluginRack.compute_complete_percentage
    rw [ht, hp]
    exact pctFun_zero_zero
  · unfold PluginRack.compute_complete_percentage
    rw [ht]
    exact pctFun_pos_zero s.position hp

/-- C6, witness: the amended statement instantiated at 53/100 and at 1/0. -/
theorem c6_percentage_witness :
    (0 < c6sA.total ∧ c6sA.position ≤ c6sA.total ∧
      c6sA.compute_complete_percentage ≤ 100 * c6sA.position / c6sA.total + 1 ∧
      100 * c6sA.position / c6sA.total ≤ c6sA.compute_complete_percentage + 1) ∧
    (c6sB.total = 0 ∧ 0 < c6sB.position ∧
      c6sB.compute_complete_percentage = 2 ^ 64 - 1) := by
  have hA := (c6_percentage c6sA).1 (by decide) (by decide)
  have hB := (c6_percentage c6sB).2.2 rfl (by decide)
  exact ⟨⟨by decide, by decide, hA.1, hA.2⟩, ⟨rfl, by decide, hB⟩⟩

/-- C7: undo with at most one stored version returns the state unchanged
(idempotent at the history floor; pixels and dirty flags of the live version
untouched); with more than one version it removes exactly the last and marks
every tile of the new live version dirty. -/
theorem c7_undo (s : PluginRack) :
    s.undo = if 1 < s.images.length
      then { s with images := modifyLast SplittedImage.request_all_update
                      s.images.dropLast }
      else s := by
  unfold PluginRack.undo
  split
  · next h =>
    have he : s.images.eraseIdx (s.images.length - 1) = s.images.dropLast :=
      eraseIdx_length_sub_one s.images
    rw [he]
  · rfl

/-- C8: for every valid plugin index, remove_plugin succeeds and produces the
trace in which suspend is invoked on the loaded instance strictly before the
chain entry is dropped; with no loaded instance the entry is dropped with
suspend as a no-op (no suspend event). -/
theorem c8_remove_plugin (s : PluginRack) (id : ℕ) (p : PluginRackInstance)
    (hget : s.plugins.get? id = some p) :
    s.remove_plugin id =
      some ({ s with plugins := s.plugins.eraseIdx id },
        if p.inst.isSome then [VstEvent.suspend, VstEvent.dropEntry]
        else [VstEvent.dropEntry]) := by
  unfold PluginRack.remove_plugin
  rw [hget]
  cases hinst : p.inst with
  | none => simp [suspendEvents, hinst]
  | some i => simp [suspendEvents, hinst]

/-- A live instance reporting one input and one output channel. -/
def someInst : VstInstance := { inputs := 1, outputs := 1, processFn := fun _ _ _ => 0 }

/-- A runnable plugin handle wrapping someInst. -/
def somePlugin : PluginRackInstance :=
  { inst := some someInst, bypass := false, input_channel := .red,
    output_channel := 0, wet := 1 }

/-- A rack holding one loaded plugin. -/
def c8s : PluginRack :=
  { plugins := [somePlugin], images := [], position := 0, total := 0, finished := true }

/-- C8, witness: removing the only plugin of a rack, with a loaded instance,
emits suspend then the drop. -/
theorem c8_remove_plugin_witness :
    c8s.plugins.get? 0 = some somePlugin ∧
      c8s.remove_plugin 0 =
        some ({ c8s with plugins := [] },
          [VstEvent.suspend, VstEvent.dropEntry]) := by
  have h := c8_remove_plugin c8s 0 somePlugin rfl
  exact ⟨rfl, h⟩

theorem processAreaGo_cons (a : Area) (p : PluginRackInstance)
    (rest : List PluginRackInstance) (j : ℕ) (images imgs : List SplittedImage)
    (tr : List (ℕ × VstEvent))
    (h : processAreaGo a (p :: rest) j images = some (imgs, tr)) :
    ∃ images2 evs imgs3 tr2,
      processAreaPlugin a p images = some (images2, evs) ∧
      processAreaGo a rest (j + 1) images2 = some (imgs3, tr2) ∧
      imgs = imgs3 ∧ tr = evs.map (fun e => (j, e)) ++ tr2 := by
  unfold processAreaGo at h
  cases hp : processAreaPlugin a p images with
  | none =>
    rw [hp] at h
    cases h
  | some r =>
    obtain ⟨images2, evs⟩ := r
    rw [hp] at h
    simp only [] at h
    cases hgo : processAreaGo a rest (j + 1) images2 with
    | none =>
      rw [hgo] at h
      cases h
    | some r2 =>
      obtain ⟨imgs3, tr2⟩ := r2
      rw [hgo] at h
      simp only [Option.some.injEq, Prod.mk.injEq] at h
      obtain ⟨h1, h2⟩ := h
      exact ⟨images2, evs, imgs3, tr2, rfl, hgo, h1.symm, h2.symm⟩

theorem processAreaPlugin_runnable_trace (a : Area) (p : PluginRackInstance)
    (images : List SplittedImage) (images2 : List SplittedImage)
    (evs : List VstEvent)
    (h : processAreaPlugin a p images = some (images2, evs)) (hq : runnable p) :
    evs = areaLifecycle a := by
  obtain ⟨hq1, hq2, hq3⟩ := hq
  obtain ⟨inst, hinst⟩ := Option.isSome_iff_exists.mp hq1
  rw [hinst] at hq3
  simp only [] at hq3
  have hb0 : (inst.inputs == 0) = false := by
    have hne : inst.inputs ≠ 0 := by omega
    simpa using hne
  unfold processAreaPlugin at h
  rw [hinst] at h
  simp only [hq2, Bool.false_eq_true, if_false, hb0] at h
  cases hlast : images.getLast? with
  | none =>
    rw [hlast] at h
    cases h
  | some img =>
    rw [hlast] at h
    simp only [] at h
    cases hsp : img.splits.get?
        (img.origWidth / IMAGE_SPLIT_W * (a.y / IMAGE_SPLIT_H) + a.x / IMAGE_SPLIT_W) with
    | none =>
      rw [hsp] at h
      cases h
    | some sp =>
      rw [hsp] at h
      simp only [] at h
      split at h
      · cases h
      · split at h
        · simp only [Option.some.injEq, Prod.mk.injEq] at h
          exact h.2.symm
        · cases h

theorem processAreaGo_tags (a : Area) (ps : List PluginRackInstance) (j : ℕ)
    (images imgs : List SplittedImage) (tr : List (ℕ × VstEvent))
    (h : processAreaGo a ps j images = some (imgs, tr)) :
    ∀ e ∈ tr, j ≤ e.1 := by
  induction ps generalizing j images imgs tr with
  | nil =>
    unfold processAreaGo at h
    simp only [Option.some.injEq, Prod.mk.injEq] at h
    rw [← h.2]
    intro e he
    cases he
  | cons p rest ih =>
    obtain ⟨images2, evs, imgs3, tr2, hp, hgo, hie, hte⟩ :=
      processAreaGo_cons a p rest j images imgs tr h
    subst hte
    intro e he
    rw [List.mem_append] at he
    rcases he with he | he
    · obtain ⟨x, hx, rfl⟩ := List.mem_map.mp he
      exact le_refl j
    · have hr := ih (j + 1) images2 imgs3 tr2 hgo e he
      omega

theorem processAreaGo_filter (a : Area) (ps : List PluginRackInstance) (j : ℕ)
    (images imgs : List SplittedImage) (tr : List (ℕ × VstEvent))
    (h : processAreaGo a ps j images = some (imgs, tr))
    (k : ℕ) (hk : k < ps.length) (hq : runnable (ps.get ⟨k, hk⟩)) :
    tr.filter (fun e => e.1 == j + k) = (areaLifecycle a).map (fun e => (j + k, e)) := by
  induction ps generalizing j images imgs tr k with
  | nil => exact absurd hk (Nat.not_lt_zero k)
  | cons p rest ih =>
    obtain ⟨images2, evs, imgs3, tr2, hp, hgo, hie, hte⟩ :=
      processAreaGo_cons a p rest j images imgs tr h
    subst hte
    rw [List.filter_append]
    cases k with
    | zero =>
      have hq0 : runnable p := hq
      have hevs : evs = areaLifecycle a :=
        processAreaPlugin_runnable_trace a p images images2 evs hp hq0
      have h1 : (evs.map (fun e => (j, e))).filter (fun e => e.1 == j + 0) =
          evs.map (fun e => (j, e)) := by
        apply List.filter_eq_self.mpr
        intro e he
        obtain ⟨x, hx, rfl⟩ := List.mem_map.mp he
        simp
      have h2 : tr2.filter (fun e => e.1 == j + 0) = [] := by
        apply List.filter_eq_nil_iff.mpr
        intro e he
        have ht := processAreaGo_tags a rest (j + 1) images2 imgs3 tr2 hgo e he
        simp only [beq_iff_eq]
        omega
      rw [h1, h2, List.append_nil, hevs]
      simp
    | succ k1 =>
      have hk1 : k1 < rest.length := by simpa using hk
      have hq1 : runnable (rest.get ⟨k1, hk1⟩) := hq
      have h1 : (evs.map (fun e => (j, e))).filter (fun e => e.1 == j + (k1 + 1)) = [] := by
        apply List.filter_eq_nil_iff.mpr
        intro e he
        obtain ⟨x, hx, rfl⟩ := List.mem_map.mp he
        simp only [beq_iff_eq]
        omega
      have h2 := ih (j + 1) images2 imgs3 tr2 hgo k1 hk1 hq1
      rw [h1, List.nil_append]
      rw [show j + (k1 + 1) = j + 1 + k1 from by omega]
      exact h2

/-- C9: whenever process_area returns (does not panic), every handle that is
loaded, not bypassed and reports at least one input channel receives exactly
the lifecycle sequence suspend, set_block_size(area), resume, start_process,
process, stop_process, suspend, in that order, once during the call. -/
theorem c9_area_lifecycle (s : PluginRack) (a : Area) (s' : PluginRack)
    (tr : List (ℕ × VstEvent)) (h : s.process_area a = some (s', tr))
    (i : ℕ) (hi : i < s.plugins.length) (hq : runnable (s.plugins.get ⟨i, hi⟩)) :
    tr.filter (fun e => e.1 == i) = (areaLifecycle a).map (fun e => (i, e)) := by
  unfold PluginRack.process_area at h
  cases hgo : processAreaGo a s.plugins 0 s.images with
  | none =>
    rw [hgo] at h
    cases h
  | some r =>
    obtain ⟨imgs1, tr1⟩ := r
    rw [hgo] at h
    simp only [Option.map_some', Option.some.injEq, Prod.mk.injEq] at h
    obtain ⟨h1, h2⟩ := h
    subst h2
    have hf := processAreaGo_filter a s.plugins 0 s.images imgs1 tr1 hgo i hi hq
    simpa using hf

/-- A zero-extent area (its crop is empty, its block size 0). -/
def a0 : Area := { x := 0, y := 0, width := 0, height := 0 }

/-- A rack with one runnable plugin and a one-tile image. -/
def c9s : PluginRack :=
  { plugins := [somePlugin], images := [imgA], position := 0, total := 0, finished := true }

/-- The rack after process_area on a0: the touched tile is marked dirty. -/
def c9sR : PluginRack :=
  { plugins := [somePlugin], images := [imgAdirty], position := 0, total := 0,
    finished := true }

/-- The trace process_area emits for c9s on a0. -/
def c9tr : List (ℕ × VstEvent) :=
  [(0, .suspend), (0, .setBlockSize 0), (0, .resume), (0, .startProcess),
   (0, .processCall), (0, .stopProcess), (0, .suspend)]

/-- C9, witness: one runnable plugin receives exactly the seven lifecycle
calls during one process_area call. -/
theorem c9_area_lifecycle_witness :
    c9s.process_area a0 = some (c9sR, c9tr) ∧
      runnable somePlugin ∧
      c9tr.filter (fun e => e.1 == 0) =
        (areaLifecycle a0).map (fun e => (0, e)) := by
  have hlen : 0 < c9s.plugins.length := by decide
  have hq : runnable (c9s.plugins.get ⟨0, hlen⟩) := ⟨rfl, rfl, le_refl 1⟩
  have h := c9_area_lifecycle c9s a0 c9sR c9tr rfl 0 hlen hq
  exact ⟨rfl, hq, h⟩

/-- C10: stop_process panics (modelled as none) exactly when the version
stack holds fewer than two image versions — with no image loaded or with an
image but no working copy it is a panic, not a no-op; with at least two
versions it succeeds. -/
theorem c10_stop_process_panics (s : PluginRack) :
    s.stop_process = none ↔ s.images.length < 2 := by
  unfold PluginRack.stop_process
  cases himg : s.images with
  | nil => simp
  | cons a rest =>
    cases rest with
    | nil => simp
    | cons b t =>
      simp
